import Mathlib

/-!
Verification of the attendance calculation engine of the
`fingerprint_analyzing` repository (`src/attendance_calculator.py`,
class `AttendanceCalculator`).

Modelling conventions (shallow embedding):
* Calendar dates are day indices (`Nat`); a punch time of day is minutes
  after midnight (`Nat`).  The pandas `DateTime` values built by the source
  with format `%Y-%m-%d %H:%M` have minute resolution, so a timestamp is
  modelled as minutes since day 0, as an `Int` (delays are signed).
* Only rows whose `Date`/`Time` cells parse under the source's strict
  formats are modelled; the source silently skips/drops unparseable rows
  (`errors='coerce'` + NaT removal), a path that none of the claims
  exercises.
* The Arabic status strings of the source are kept verbatim, because the
  day-flag columns of `_calculate_day_attendance` compare the full status
  string and the exact string contents are load-bearing.
* `compliance_rate` and the `Absence Reason` text are not modelled: no
  claim mentions them.
-/

namespace Fingerprint

/-- One fingerprint (punch) row: columns Name, Department, Date, Time of
the punch batch, with Date as a day index and Time in minutes. -/
structure Punch where
  name : String
  dept : String
  date : Nat
  time : Nat
deriving DecidableEq, Repr

/-- Minute-resolution timestamp of a punch (the `DateTime` column the
source builds from `Date` + `Time`). -/
def punch_ts (p : Punch) : Int := (p.date : Int) * 1440 + (p.time : Int)

/-- One entry of the matcher's `attendance_status` list
(`_match_fingerprints_to_required_times`): the required instant, whether a
punch was matched to it, and the matched punch's timestamp. -/
structure SlotMatch where
  required_time : Int
  matched : Bool
  actual_time : Option Int
deriving DecidableEq, Repr

/-- Python `min(candidates, key=abs distance to req)`: first element with
minimal absolute distance (Python `min` keeps the earliest minimum). -/
def argminAbs (req : Int) : List Int → Option Int
  | [] => none
  | t :: rest =>
    match argminAbs req rest with
    | none => some t
    | some b => if |b - req| < |t - req| then some b else some t

/-- Minute-level dedup of the matcher (`unique_minutes` set): keep the
first occurrence of each timestamp value.  With minute-resolution
timestamps the `%Y-%m-%d %H:%M` minute key is the timestamp itself. -/
def dedupFirstIntAux (seen : List Int) : List Int → List Int
  | [] => []
  | t :: rest =>
    if t ∈ seen then dedupFirstIntAux seen rest
    else t :: dedupFirstIntAux (t :: seen) rest

/-- Minute-level dedup, starting from an empty seen-set. -/
def dedupFirstInt (l : List Int) : List Int := dedupFirstIntAux [] l

/-- Candidate punches for one required instant: inside the tolerance
window and not yet consumed (`used_fingerprints`), then minute-deduped
(lines 510-529 of `attendance_calculator.py`). -/
def slotCandidates (tol req : Int) (used : List Int) (punches : List Int) : List Int :=
  dedupFirstInt (punches.filter (fun t => decide (req - tol ≤ t ∧ t ≤ req + tol ∧ t ∉ used)))

/-- Core loop of `_match_fingerprints_to_required_times`: for each
required instant pick the closest unconsumed candidate in the window and
mark it used. -/
def matchSlotsAux (tol : Int) (punches : List Int) (used : List Int) :
    List Int → List SlotMatch
  | [] => []
  | req :: rest =>
    match argminAbs req (slotCandidates tol req used punches) with
    | none =>
      { required_time := req, matched := false, actual_time := none } ::
        matchSlotsAux tol punches used rest
    | some a =>
      { required_time := req, matched := true, actual_time := some a } ::
        matchSlotsAux tol punches (a :: used) rest

/-- Source `_match_fingerprints_to_required_times`, with the `used_fingerprints`
set initially empty. -/
def matchSlots (tol : Int) (punches : List Int) (reqs : List Int) : List SlotMatch :=
  matchSlotsAux tol punches [] reqs

/-- Timestamps referenced by the matched entries of a slot-match list. -/
def matchedTimes (l : List SlotMatch) : List Int := l.filterMap SlotMatch.actual_time

/-- Day-level metrics record of `_calculate_attendance_metrics`
(`Required Checks`, `Actual Checks`, `Missing Checks`, `LateCount`,
`LateMinutes`; `Compliance Rate` is not modelled). -/
structure Metrics where
  requiredChecks : Nat
  actualChecks : Nat
  missingChecks : Nat
  lateCount : Nat
  lateMinutes : Int
deriving DecidableEq, Repr

/-- Late contribution of one slot (lines 613-623): only a matched slot
with `delay > tolerance` counts, and it adds `delay - tolerance` minutes. -/
def lateOfSlot (tol : Int) (s : SlotMatch) : Nat × Int :=
  if s.matched then
    match s.actual_time with
    | some a =>
      let delay := a - s.required_time
      if delay > tol then (1, delay - tol) else (0, 0)
    | none => (0, 0)
  else (0, 0)

/-- Source `_calculate_attendance_metrics`. -/
def calculate_attendance_metrics (tol : Int) (l : List SlotMatch) : Metrics :=
  let matched := (l.filter (fun s => s.matched)).length
  { requiredChecks := l.length
    actualChecks := matched
    missingChecks := l.length - matched
    lateCount := (l.map (fun s => (lateOfSlot tol s).1)).sum
    lateMinutes := (l.map (fun s => (lateOfSlot tol s).2)).sum }

/-! Day status classification (`_determine_day_status`).  The source
returns Arabic status strings; the incomplete status embeds the missing
count, e.g. `'نقص بصمة (2)'`.  The strings are kept verbatim because
`_calculate_day_attendance` compares them literally when it builds the
per-day flag columns. -/

/-- Source `_determine_day_status` (lines 564-594).  The `late_threshold`
argument of the source is ignored by its body and omitted here. -/
def determine_day_status (attendance_status : List SlotMatch) (has_punches_on_day : Bool) :
    String :=
  let matched_count := (attendance_status.filter (fun s => s.matched)).length
  let total_required := attendance_status.length
  let missing_count := total_required - matched_count
  if ¬ has_punches_on_day then "غائب"
  else if matched_count = total_required then "مستوفي"
  else "نقص بصمة (" ++ toString missing_count ++ ")"

/-! Required-slot generation (`_get_required_times_for_date`). -/

/-- Python whitespace characters (`str.strip()` / `int()` stripping). -/
def py_space (c : Char) : Bool :=
  c = ' ' || c = '\t' || c = '\n' || c = '\r' || c = '\x0b' || c = '\x0c'

/-- Strip leading and trailing whitespace from a character list. -/
def trimChars (cs : List Char) : List Char :=
  ((cs.dropWhile py_space).reverse.dropWhile py_space).reverse

/-- Python `str.strip()` on a column name. -/
def stripStr (s : String) : String := String.mk (trimChars s.toList)

/-- Python `str.split(sep)` for a one-character separator. -/
def splitCharsOn (sep : Char) : List Char → List (List Char)
  | [] => [[]]
  | c :: rest =>
    match splitCharsOn sep rest with
    | [] => [[]]
    | cur :: parts => if c = sep then [] :: cur :: parts else (c :: cur) :: parts

/-- Decimal digits to a number; `none` on an empty or non-digit list. -/
def digitsVal (cs : List Char) : Option Nat :=
  if cs.isEmpty then none
  else cs.foldl
    (fun acc c => acc.bind (fun n => if c.isDigit then some (n * 10 + (c.toNat - 48)) else none))
    (some 0)

/-- Python `int(s)` on a string: optional surrounding whitespace, an
optional sign, then decimal digits.  (Python also accepts underscore
digit separators, which no claim exercises and the model omits.) -/
def pyIntChars (cs : List Char) : Option Int :=
  match trimChars cs with
  | '-' :: rest => (digitsVal rest).map (fun n => -(n : Int))
  | '+' :: rest => (digitsVal rest).map (fun n => (n : Int))
  | ds => (digitsVal ds).map (fun n => (n : Int))

/-- Lines 443-448: `hour, minute = map(int, time_str.split(':'))` with the
`except (ValueError, AttributeError)` fallback to `8, 0`.  Any shape other
than two ':'-separated integers raises `ValueError` in the source (wrong
number of parts to unpack, or a part `int()` rejects) and falls back. -/
def parse_required_time (s : String) : Int × Int :=
  match splitCharsOn ':' s.toList with
  | [hs, ms] =>
    match pyIntChars hs, pyIntChars ms with
    | some h, some m => (h, m)
    | _, _ => (8, 0)
  | _ => (8, 0)

/-- One generated required slot: the calendar day it is anchored to and
the resulting instant in minutes.  (The human-readable description is not
modelled; no claim mentions it.) -/
structure RequiredSlot where
  anchor : Nat
  instant : Int
deriving DecidableEq, Repr

/-- Slot construction for list index `i` of `n` configured times (lines
450-459).  `datetime.min.time().replace(hour=hour, minute=minute)` raises
`ValueError` when the parsed hour is outside 0..23 or the minute outside
0..59; that exception propagates and the whole day is skipped, modelled as
`Except.error`. -/
def mk_slot (n : Nat) (shift_date : Nat) (i : Nat) (s : String) : Except Unit RequiredSlot :=
  let hm := parse_required_time s
  if 0 ≤ hm.1 ∧ hm.1 ≤ 23 ∧ 0 ≤ hm.2 ∧ hm.2 ≤ 59 then
    let anchor := if i = n - 1 then shift_date + 1 else shift_date
    .ok { anchor := anchor, instant := (anchor : Int) * 1440 + hm.1 * 60 + hm.2 }
  else .error ()

/-- Enumerated loop of `_get_required_times_for_date`; the first raising
slot aborts the whole list (the exception propagates out of the loop). -/
def gen_required_times (n shift_date : Nat) : Nat → List String → Except Unit (List RequiredSlot)
  | _, [] => .ok []
  | i, s :: rest => do
    let slot ← mk_slot n shift_date i s
    let others ← gen_required_times n shift_date (i + 1) rest
    pure (slot :: others)

/-- Source `_get_required_times_for_date` (lines 427-473): every configured time
except the last is anchored to the shift date, the last to the following
day, decided purely by list position. -/
def get_required_times_for_date (required_times : List String) (shift_date : Nat) :
    Except Unit (List RequiredSlot) :=
  gen_required_times required_times.length shift_date 0 required_times

/-- A configured time string whose parsed hour/minute pass the
`time.replace` range checks, so its slot construction cannot raise. -/
def slot_time_ok (s : String) : Prop :=
  0 ≤ (parse_required_time s).1 ∧ (parse_required_time s).1 ≤ 23 ∧
  0 ≤ (parse_required_time s).2 ∧ (parse_required_time s).2 ≤ 59

instance (s : String) : Decidable (slot_time_ok s) :=
  inferInstanceAs (Decidable (_ ∧ _ ∧ _ ∧ _))

/-! Near-duplicate sweep (lines 99-140 of `calculate_attendance`).  The
source sorts the whole punch frame by (Name, DateTime) and scans forward,
marking every row less than 10 minutes after the current anchor row of the
same employee for removal; the first row at least 10 minutes later (or of
another employee) becomes the next anchor.  A removed row never becomes an
anchor. -/

/-- Forward scan with the current anchor row's name and timestamp. -/
def sweep_go (curName : String) (anchor : Int) : List Punch → List Punch
  | [] => []
  | p :: rest =>
    if p.name = curName then
      if punch_ts p - anchor < 10 then sweep_go curName anchor rest
      else p :: sweep_go p.name (punch_ts p) rest
    else p :: sweep_go p.name (punch_ts p) rest

/-- The 10-minute near-duplicate removal pass. -/
def sweep_near_duplicates : List Punch → List Punch
  | [] => []
  | p :: rest => p :: sweep_go p.name (punch_ts p) rest

/-! The rest of the `calculate_attendance` pipeline: input tables,
configuration, cleaning, per-day processing and employee aggregation. -/

/-- One row of the shift schedule batch (columns Name, Shift Date). -/
structure ShiftRow where
  name : String
  shiftDate : Nat
deriving DecidableEq, Repr

/-- The punch batch: a column list (pandas column metadata, relevant to
the structural checks) plus typed rows. -/
structure PunchTable where
  columns : List String
  rows : List Punch

/-- The shift schedule batch. -/
structure ShiftTable where
  columns : List String
  rows : List ShiftRow

/-- Constructor configuration of `AttendanceCalculator`.  `norm` is the
`time_normalization_map` lifted to minutes (the map's keys are
`'%H:%M'`-formatted time strings; other key shapes would belong to rows
the DateTime parse drops anyway).  `late_threshold` is ignored by every
computation of the source and omitted. -/
structure Config where
  required_times : List String
  tolerance_minutes : Int
  absence_threshold : Nat
  norm : Nat → Nat

/-- Default `required_times` of the constructor. -/
def default_required_times : List String :=
  ["08:00", "12:00", "15:00", "20:00", "23:00", "08:00"]

/-- Default `time_normalization_map`: `'03:00' → '15:00'` in minutes. -/
def default_norm (t : Nat) : Nat := if t = 180 then 900 else t

/-- The constructor defaults (tolerance 30, absence threshold 3). -/
def defaultCfg : Config :=
  { required_times := default_required_times
    tolerance_minutes := 30
    absence_threshold := 3
    norm := default_norm }

/-- Keyed `drop_duplicates(keep='first')`: keep the first row of each key. -/
def dedupByAux {α β : Type} [DecidableEq β] (key : α → β) (seen : List β) : List α → List α
  | [] => []
  | x :: rest =>
    if key x ∈ seen then dedupByAux key seen rest
    else x :: dedupByAux key (key x :: seen) rest

/-- Keyed first-occurrence dedup starting from no seen keys. -/
def dedupBy {α β : Type} [DecidableEq β] (key : α → β) (l : List α) : List α :=
  dedupByAux key [] l

/-- Code-point lexicographic string order (how Python and pandas compare
the employee-name strings). -/
def str_lt (s t : String) : Prop := s.data < t.data

instance (s t : String) : Decidable (str_lt s t) :=
  inferInstanceAs (Decidable (s.data < t.data))

/-- Sort order of `sort_values(['Name', 'DateTime'])`. -/
def punch_name_ts_le (p q : Punch) : Prop :=
  str_lt p.name q.name ∨ (p.name = q.name ∧ punch_ts p ≤ punch_ts q)

instance : DecidableRel punch_name_ts_le := fun p q =>
  inferInstanceAs (Decidable (str_lt p.name q.name ∨ (p.name = q.name ∧ punch_ts p ≤ punch_ts q)))

/-- Stable sort by (Name, DateTime) before the near-duplicate sweep. -/
def sort_name_ts (l : List Punch) : List Punch := List.insertionSort punch_name_ts_le l

/-- Sort order of `sort_values('DateTime')`. -/
def punch_ts_le (p q : Punch) : Prop := punch_ts p ≤ punch_ts q

instance : DecidableRel punch_ts_le := fun p q =>
  inferInstanceAs (Decidable (punch_ts p ≤ punch_ts q))

/-- Stable sort of one day's punch range by DateTime. -/
def sort_ts (l : List Punch) : List Punch := List.insertionSort punch_ts_le l

/-- Time normalization of one record (`_get_fingerprints_for_date_range`
lines 335-343): the Time value is remapped, the Date is untouched. -/
def normalize_punch (norm : Nat → Nat) (p : Punch) : Punch :=
  { p with time := norm p.time }

/-- Source `_get_fingerprints_for_date_range`: this employee's punches dated on
the shift date or the following day, time-normalized and sorted by
DateTime. -/
def range_punches (cfg : Config) (punches : List Punch) (emp : String) (d : Nat) :
    List Punch :=
  sort_ts ((punches.filter
    (fun p => decide (p.name = emp ∧ (p.date = d ∨ p.date = d + 1)))).map
      (normalize_punch cfg.norm))

/-- One row of the per-day results frame built by
`_calculate_day_attendance` (the columns the aggregation consumes; the
raw `Required Times`/`Attendance Status` lists are not carried along). -/
structure DayResult where
  name : String
  dept : String
  date : Nat
  dayStatus : String
  presentDays : Nat
  completeDays : Nat
  incompleteDays : Nat
  absentDays : Nat
  requiredChecks : Nat
  actualChecks : Nat
  missingChecks : Nat
  lateCount : Nat
  lateMinutes : Int
deriving DecidableEq, Repr

/-- Source `_calculate_day_attendance` after the required-times generation: match
slots, classify the day, compute metrics and the flag columns.  The flag
columns compare the day-status string literally, exactly as the source
does (lines 420-423), including against the bare string `'نقص بصمة'`. -/
def day_attendance_core (cfg : Config) (punches : List Punch) (emp : String) (d : Nat)
    (slots : List Int) : DayResult :=
  let range := range_punches cfg punches emp d
  let dept := match range with
    | [] => "Unknown"
    | p :: _ => p.dept
  let status := matchSlots cfg.tolerance_minutes (range.map punch_ts) slots
  let hasPunch := !(range.filter (fun p => decide (p.date = d))).isEmpty
  let ds := determine_day_status status hasPunch
  let m := calculate_attendance_metrics cfg.tolerance_minutes status
  { name := emp
    dept := dept
    date := d
    dayStatus := ds
    presentDays := if ds = "مستوفي" ∨ ds = "نقص بصمة" then 1 else 0
    completeDays := if ds = "مستوفي" then 1 else 0
    incompleteDays := if ds = "نقص بصمة" then 1 else 0
    absentDays := if ds = "غائب" then 1 else 0
    requiredChecks := m.requiredChecks
    actualChecks := m.actualChecks
    missingChecks := m.missingChecks
    lateCount := m.lateCount
    lateMinutes := m.lateMinutes }

/-- One shift-schedule row processed inside the employee loop of
`calculate_attendance` (lines 246-278): the required-times generation may
raise (hour/minute out of range), in which case the day is skipped by the
surrounding `except`/`continue` and yields no result. -/
def processShiftDay (cfg : Config) (punches : List Punch) (emp : String) (d : Nat) :
    Option DayResult :=
  match get_required_times_for_date cfg.required_times d with
  | .error _ => none
  | .ok slots => some (day_attendance_core cfg punches emp d (slots.map RequiredSlot.instant))

/-- All day results of one employee, one per processed shift row. -/
def processEmployee (cfg : Config) (punches : List Punch) (shifts : List ShiftRow)
    (emp : String) : List DayResult :=
  (shifts.filter (fun r => decide (r.name = emp))).filterMap
    (fun r => processShiftDay cfg punches emp r.shiftDate)

/-- Union of employee names of both cleaned batches.  The source iterates
a Python `set`, whose iteration order is unspecified; first-appearance
order is used here.  Each employee's own results do not depend on this
order, and the final summary frame is re-sorted by the groupby. -/
def employeesOf (punches : List Punch) (shifts : List ShiftRow) : List String :=
  dedupBy id (punches.map Punch.name ++ shifts.map ShiftRow.name)

/-- The whole daily-results frame (`self.daily_results`). -/
def computeDaily (cfg : Config) (punches : List Punch) (shifts : List ShiftRow) :
    List DayResult :=
  (employeesOf punches shifts).flatMap (fun e => processEmployee cfg punches shifts e)

/-- Source `employee_shift_counts` lookup: shift rows of one employee after
cleaning (0 when absent from the schedule). -/
def count_shift_rows (shifts : List ShiftRow) (nm : String) : Nat :=
  (shifts.filter (fun r => decide (r.name = nm))).length

/-- One row of the aggregated employee summary
(`_aggregate_employee_results`; `Compliance Rate` and the
`Absence Reason` text are not modelled, no claim mentions them). -/
structure EmpSummary where
  name : String
  dept : String
  totalWorkingDays : Nat
  completeDays : Nat
  incompleteDays : Nat
  absentDays : Nat
  lateCount : Nat
  lateMinutes : Int
  requiredChecks : Nat
  actualChecks : Nat
  missingChecks : Nat
  finalStatus : String
deriving DecidableEq, Repr

/-- Aggregation of one (Name, Department) group (lines 646-736): sum the
day columns, then overwrite `Absent Days` with the missing-check bucket
`missing_checks // absence_threshold` (only computed when
`missing_checks > 0`), and derive `FinalStatus` from the summed
`Incomplete Days` and the bucketed `Absent Days`. -/
def aggregateGroup (th twd : Nat) (nm dept : String) (group : List DayResult) :
    EmpSummary :=
  let missing := (group.map (fun r => r.missingChecks)).sum
  let absent := if missing > 0 then missing / th else 0
  let inc := (group.map (fun r => r.incompleteDays)).sum
  { name := nm
    dept := dept
    totalWorkingDays := twd
    completeDays := (group.map (fun r => r.completeDays)).sum
    incompleteDays := inc
    absentDays := absent
    lateCount := (group.map (fun r => r.lateCount)).sum
    lateMinutes := (group.map (fun r => r.lateMinutes)).sum
    requiredChecks := (group.map (fun r => r.requiredChecks)).sum
    actualChecks := (group.map (fun r => r.actualChecks)).sum
    missingChecks := missing
    finalStatus := if inc = 0 ∧ absent = 0 then "ملتزم" else "غير ملتزم" }

/-- The ascending groupby key order of `groupby(['Name', 'Department'])`. -/
def key_le (a b : String × String) : Prop :=
  str_lt a.1 b.1 ∨ (a.1 = b.1 ∧ (str_lt a.2 b.2 ∨ a.2 = b.2))

instance : DecidableRel key_le := fun a b =>
  inferInstanceAs (Decidable (str_lt a.1 b.1 ∨ (a.1 = b.1 ∧ (str_lt a.2 b.2 ∨ a.2 = b.2))))

/-- Source `_aggregate_employee_results`: one summary row per (Name, Department)
group of the daily frame, in groupby key order; `Total Working Days`
comes from the cleaned shift-schedule row counts. -/
def aggregate (th : Nat) (shifts : List ShiftRow) (daily : List DayResult) :
    List EmpSummary :=
  let keys := dedupBy id (daily.map (fun r => (r.name, r.dept)))
  (List.insertionSort key_le keys).map (fun k =>
    aggregateGroup th (count_shift_rows shifts k.1) k.1 k.2
      (daily.filter (fun r => decide (r.name = k.1 ∧ r.dept = k.2))))

/-- Observable outcome of `calculate_attendance`.  The source signals the
non-`ok` conditions by printing a message and returning an empty frame,
except `uncaughtKeyError`: a `KeyError` raised by
`drop_duplicates(subset=...)` (lines 81 and 160) when a subset column is
missing, which no handler catches. -/
inductive CalcOutcome where
  | uncaughtKeyError
  | emptyInput
  | missingColumns (cols : List String)
  | noResults
  | ok (summaries : List EmpSummary)
deriving DecidableEq, Repr

/-- Required punch-batch columns (line 199). -/
def required_fingerprint_cols : List String := ["Name", "Department", "Date", "Time"]

/-- Required shift-batch columns (line 206). -/
def required_shift_cols : List String := ["Name", "Shift Date"]

/-- Source `calculate_attendance` (lines 57-299), with `settings=None`: strip
column names, drop exact duplicates, drop (Name, Date, Time) duplicates
(raising `KeyError` when a subset column is absent), run the 10-minute
sweep, clean the shift batch likewise, then the emptiness and
required-column checks, per-employee day processing and aggregation. -/
def calculate_attendance (cfg : Config) (fp : PunchTable) (sh : ShiftTable) : CalcOutcome :=
  let fcols := fp.columns.map stripStr
  let frows1 := dedupBy id fp.rows
  if ["Name", "Date", "Time"].all fcols.contains then
    let frows2 := dedupBy (fun p => (p.name, p.date, p.time)) frows1
    let frows3 := sweep_near_duplicates (sort_name_ts frows2)
    let scols := sh.columns.map stripStr
    let srows1 := dedupBy id sh.rows
    if ["Name", "Shift Date"].all scols.contains then
      let srows2 := dedupBy (fun r => (r.name, r.shiftDate)) srows1
      if frows3.isEmpty then .emptyInput
      else if srows2.isEmpty then .emptyInput
      else
        let missF := required_fingerprint_cols.filter (fun c => !fcols.contains c)
        if !missF.isEmpty then .missingColumns missF
        else
          let missS := required_shift_cols.filter (fun c => !scols.contains c)
          if !missS.isEmpty then .missingColumns missS
          else
            let daily := computeDaily cfg frows3 srows2
            if daily.isEmpty then .noResults
            else .ok (aggregate cfg.absence_threshold srows2 daily)
    else .uncaughtKeyError
  else .uncaughtKeyError

/-! Basic lemmas about the matcher. -/

theorem argminAbs_mem {req : Int} {l : List Int} {a : Int}
    (h : argminAbs req l = some a) : a ∈ l := by
  induction l with
  | nil => simp [argminAbs] at h
  | cons t rest ih =>
    simp only [argminAbs] at h
    cases hr : argminAbs req rest with
    | none => rw [hr] at h; simp at h; simp [h]
    | some b =>
      rw [hr] at h
      by_cases hb : |b - req| < |t - req|
      · simp [hb] at h; subst h; exact List.mem_cons_of_mem _ (ih hr)
      · simp [hb] at h; simp [h]

theorem dedupFirstIntAux_subset {seen : List Int} {l : List Int} {a : Int}
    (h : a ∈ dedupFirstIntAux seen l) : a ∈ l := by
  induction l generalizing seen with
  | nil => simp [dedupFirstIntAux] at h
  | cons t rest ih =>
    simp only [dedupFirstIntAux] at h
    by_cases ht : t ∈ seen
    · simp [ht] at h; exact List.mem_cons_of_mem _ (ih h)
    · simp [ht] at h
      cases h with
      | inl h => simp [h]
      | inr h => exact List.mem_cons_of_mem _ (ih h)

/-- A chosen candidate lies in the tolerance window and was not yet
consumed. -/
theorem chosen_spec {tol req : Int} {used punches : List Int} {a : Int}
    (h : argminAbs req (slotCandidates tol req used punches) = some a) :
    (req - tol ≤ a ∧ a ≤ req + tol) ∧ a ∉ used := by
  have hmem := dedupFirstIntAux_subset (argminAbs_mem h)
  have := List.mem_filter.mp hmem
  have hp := of_decide_eq_true this.2
  exact ⟨⟨hp.1, hp.2.1⟩, hp.2.2⟩

/-- Every matched time of `matchSlotsAux` avoids the initial used-set, and
the matched times are pairwise distinct. -/
theorem matchSlotsAux_nodup (tol : Int) (punches : List Int) :
    ∀ (reqs used : List Int),
      (∀ t ∈ matchedTimes (matchSlotsAux tol punches used reqs), t ∉ used) ∧
      (matchedTimes (matchSlotsAux tol punches used reqs)).Nodup := by
  intro reqs
  induction reqs with
  | nil => intro used; simp [matchSlotsAux, matchedTimes]
  | cons req rest ih =>
    intro used
    cases hmin : argminAbs req (slotCandidates tol req used punches) with
    | none =>
      have h := ih used
      constructor
      · intro t ht
        simp only [matchSlotsAux, hmin, matchedTimes, List.filterMap_cons] at ht
        exact h.1 t ht
      · simp only [matchSlotsAux, hmin, matchedTimes, List.filterMap_cons]
        exact h.2
    | some a =>
      have h := ih (a :: used)
      have ha := chosen_spec hmin
      constructor
      · intro t ht
        simp only [matchSlotsAux, hmin, matchedTimes, List.filterMap_cons, List.mem_cons] at ht
        cases ht with
        | inl ht => subst ht; exact ha.2
        | inr ht => exact fun hc => h.1 t ht (List.mem_cons_of_mem _ hc)
      · simp only [matchSlotsAux, hmin, matchedTimes, List.filterMap_cons, List.nodup_cons]
        refine ⟨fun hc => h.1 a hc (List.mem_cons_self _ _), h.2⟩

/-- Every matched entry of `matchSlotsAux` has its actual time inside the
tolerance window around its own required instant. -/
theorem matchSlotsAux_window (tol : Int) (punches : List Int) :
    ∀ (reqs used : List Int) (s : SlotMatch),
      s ∈ matchSlotsAux tol punches used reqs →
      ∀ a : Int, s.actual_time = some a →
        s.required_time - tol ≤ a ∧ a ≤ s.required_time + tol := by
  intro reqs
  induction reqs with
  | nil => intro used s hs; simp [matchSlotsAux] at hs
  | cons req rest ih =>
    intro used s hs a hsa
    cases hmin : argminAbs req (slotCandidates tol req used punches) with
    | none =>
      simp only [matchSlotsAux, hmin, List.mem_cons] at hs
      cases hs with
      | inl hs => subst hs; simp at hsa
      | inr hs => exact ih used s hs a hsa
    | some b =>
      simp only [matchSlotsAux, hmin, List.mem_cons] at hs
      cases hs with
      | inl hs =>
        subst hs
        simp at hsa
        subst hsa
        exact (chosen_spec hmin).1
      | inr hs => exact ih (b :: used) s hs a hsa

/-! Generic sum helpers. -/

theorem sum_map_zero_nat {α : Type} (f : α → Nat) :
    ∀ l : List α, (∀ x ∈ l, f x = 0) → (l.map f).sum = 0 := by
  intro l
  induction l with
  | nil => intro _; simp
  | cons x rest ih =>
    intro h
    simp only [List.map_cons, List.sum_cons, h x (List.mem_cons_self _ _), Nat.zero_add]
    exact ih (fun y hy => h y (List.mem_cons_of_mem _ hy))

theorem sum_map_zero_int {α : Type} (f : α → Int) :
    ∀ l : List α, (∀ x ∈ l, f x = 0) → (l.map f).sum = 0 := by
  intro l
  induction l with
  | nil => intro _; simp
  | cons x rest ih =>
    intro h
    simp only [List.map_cons, List.sum_cons, h x (List.mem_cons_self _ _), Int.zero_add]
    exact ih (fun y hy => h y (List.mem_cons_of_mem _ hy))

/-! Lateness is structurally impossible for matched slots. -/

/-- Every slot the matcher emits contributes nothing to the late counters:
a matched punch lies inside the window, so its delay never exceeds the
tolerance and the late branch of `_calculate_attendance_metrics` is dead. -/
theorem lateOfSlot_eq_zero {tol : Int} {punches reqs : List Int} {s : SlotMatch}
    (hs : s ∈ matchSlots tol punches reqs) : lateOfSlot tol s = (0, 0) := by
  unfold lateOfSlot
  by_cases hm : s.matched
  · cases ha : s.actual_time with
    | none => simp [hm, ha]
    | some a =>
      have hw := matchSlotsAux_window tol punches reqs [] s hs a ha
      have hd : ¬ (a - s.required_time > tol) := by omega
      simp [hm, ha, hd]
  · simp [hm]

/-- The metrics of any matcher output carry zero late count and minutes. -/
theorem metrics_late_zero (tol : Int) (punches reqs : List Int) :
    (calculate_attendance_metrics tol (matchSlots tol punches reqs)).lateCount = 0 ∧
    (calculate_attendance_metrics tol (matchSlots tol punches reqs)).lateMinutes = 0 := by
  unfold calculate_attendance_metrics
  constructor
  · exact sum_map_zero_nat _ _ (fun s hs => by rw [lateOfSlot_eq_zero hs])
  · exact sum_map_zero_int _ _ (fun s hs => by rw [lateOfSlot_eq_zero hs])

/-! Inversion lemmas for the per-day and top-level pipeline. -/

/-- Successful day processing comes from a successful slot generation. -/
theorem processShiftDay_inv {cfg : Config} {punches : List Punch} {emp : String} {d : Nat}
    {dr : DayResult} (h : processShiftDay cfg punches emp d = some dr) :
    ∃ slots, get_required_times_for_date cfg.required_times d = .ok slots ∧
      dr = day_attendance_core cfg punches emp d (slots.map RequiredSlot.instant) := by
  unfold processShiftDay at h
  cases hg : get_required_times_for_date cfg.required_times d with
  | error e => rw [hg] at h; cases h
  | ok slots =>
    rw [hg] at h
    exact ⟨slots, rfl, (Option.some.injEq _ _ ▸ h).symm⟩

/-- Field view of `day_attendance_core`: the late columns are the metrics
of the day's matcher output. -/
theorem day_attendance_core_late (cfg : Config) (punches : List Punch) (emp : String)
    (d : Nat) (slots : List Int) :
    (day_attendance_core cfg punches emp d slots).lateCount =
      (calculate_attendance_metrics cfg.tolerance_minutes
        (matchSlots cfg.tolerance_minutes
          ((range_punches cfg punches emp d).map punch_ts) slots)).lateCount ∧
    (day_attendance_core cfg punches emp d slots).lateMinutes =
      (calculate_attendance_metrics cfg.tolerance_minutes
        (matchSlots cfg.tolerance_minutes
          ((range_punches cfg punches emp d).map punch_ts) slots)).lateMinutes := by
  constructor <;> rfl

/-- Any successfully processed day has zero late columns. -/
theorem processShiftDay_late_zero {cfg : Config} {punches : List Punch} {emp : String}
    {d : Nat} {dr : DayResult} (h : processShiftDay cfg punches emp d = some dr) :
    dr.lateCount = 0 ∧ dr.lateMinutes = 0 := by
  obtain ⟨slots, _, hdr⟩ := processShiftDay_inv h
  subst hdr
  rw [(day_attendance_core_late cfg punches emp d _).1,
      (day_attendance_core_late cfg punches emp d _).2]
  exact metrics_late_zero _ _ _

/-- Every row of the daily frame comes from a successful day processing. -/
theorem computeDaily_mem {cfg : Config} {punches : List Punch} {shifts : List ShiftRow}
    {dr : DayResult} (h : dr ∈ computeDaily cfg punches shifts) :
    ∃ emp d, processShiftDay cfg punches emp d = some dr := by
  unfold computeDaily at h
  obtain ⟨e, _, he⟩ := List.mem_flatMap.mp h
  unfold processEmployee at he
  obtain ⟨r, _, hr⟩ := List.mem_filterMap.mp he
  exact ⟨e, r.shiftDate, hr⟩

/-- The summaries of an `ok` outcome are the aggregation of the daily
frame of the cleaned inputs. -/
theorem calculate_attendance_ok_inv {cfg : Config} {fp : PunchTable} {sh : ShiftTable}
    {l : List EmpSummary} (h : calculate_attendance cfg fp sh = .ok l) :
    ∃ punches shifts, l = aggregate cfg.absence_threshold shifts (computeDaily cfg punches shifts) := by
  unfold calculate_attendance at h
  dsimp only at h
  split at h
  · split at h
    · split at h
      · cases h
      · split at h
        · cases h
        · split at h
          · cases h
          · split at h
            · cases h
            · split at h
              · cases h
              · exact ⟨_, _, (CalcOutcome.ok.injEq _ _ ▸ h).symm⟩
    · cases h
  · cases h

/-- Every summary row aggregates a group of rows of the daily frame. -/
theorem aggregate_mem {th : Nat} {shifts : List ShiftRow} {daily : List DayResult}
    {s : EmpSummary} (h : s ∈ aggregate th shifts daily) :
    ∃ nm dept, s = aggregateGroup th (count_shift_rows shifts nm) nm dept
      (daily.filter (fun r => decide (r.name = nm ∧ r.dept = dept))) := by
  unfold aggregate at h
  obtain ⟨k, _, hk⟩ := List.mem_map.mp h
  exact ⟨k.1, k.2, hk.symm⟩

/-! Day-range membership. -/

/-- Membership in a day's punch range: exactly this employee's punches
dated on the shift day or the next day, time-normalized. -/
theorem mem_range_punches {cfg : Config} {punches : List Punch} {emp : String} {d : Nat}
    {a : Punch} :
    a ∈ range_punches cfg punches emp d ↔
      ∃ b ∈ punches, (b.name = emp ∧ (b.date = d ∨ b.date = d + 1)) ∧
        a = normalize_punch cfg.norm b := by
  unfold range_punches sort_ts
  rw [(List.perm_insertionSort punch_ts_le _).mem_iff]
  constructor
  · intro h
    obtain ⟨b, hb, hba⟩ := List.mem_map.mp h
    have hf := List.mem_filter.mp hb
    exact ⟨b, hf.1, of_decide_eq_true hf.2, hba.symm⟩
  · intro ⟨b, hb, hcond, hba⟩
    subst hba
    exact List.mem_map.mpr ⟨b, List.mem_filter.mpr ⟨hb, decide_eq_true hcond⟩, rfl⟩

/-- The day-range punches dated on the shift date itself are empty exactly
when the employee has no punch row dated on the shift date. -/
theorem range_day_filter_empty_iff (cfg : Config) (punches : List Punch) (emp : String)
    (d : Nat) :
    ((range_punches cfg punches emp d).filter (fun p => decide (p.date = d))).isEmpty = true ↔
      punches.filter (fun p => decide (p.name = emp ∧ p.date = d)) = [] := by
  rw [List.isEmpty_iff, List.filter_eq_nil_iff, List.filter_eq_nil_iff]
  constructor
  · intro h b hb hcond
    have hc := of_decide_eq_true hcond
    refine h (normalize_punch cfg.norm b) ?_ ?_
    · exact mem_range_punches.mpr ⟨b, hb, ⟨hc.1, Or.inl hc.2⟩, rfl⟩
    · exact decide_eq_true (by simpa [normalize_punch] using hc.2)
  · intro h a ha hcond
    obtain ⟨b, hb, ⟨hname, _⟩, hba⟩ := mem_range_punches.mp ha
    have hdate : b.date = d := by
      have := of_decide_eq_true hcond
      subst hba
      simpa [normalize_punch] using this
    exact h b hb (decide_eq_true ⟨hname, hdate⟩)

/-! Claim theorems. -/

/-- Claim C1: for every processed shift day, the day status is Absent
(غائب) whenever the employee has zero punch rows dated on the shift's own
calendar date (punches on the following day cannot rescue the day);
otherwise it is Complete (مستوفي) when matched_count equals
required_count, and otherwise Incomplete with the missing count embedded
(نقص بصمة (n)), evaluated in exactly this order. -/
theorem claim_C1_day_classification (cfg : Config) (punches : List Punch) (emp : String)
    (d : Nat) (dr : DayResult) (h : processShiftDay cfg punches emp d = some dr) :
    dr.dayStatus =
      if punches.filter (fun p => decide (p.name = emp ∧ p.date = d)) = [] then "غائب"
      else if dr.actualChecks = dr.requiredChecks then "مستوفي"
      else "نقص بصمة (" ++ toString (dr.requiredChecks - dr.actualChecks) ++ ")" := by
  obtain ⟨slots, _, hdr⟩ := processShiftDay_inv h
  subst hdr
  simp only [day_attendance_core, calculate_attendance_metrics, determine_day_status]
  by_cases hp : punches.filter (fun p => decide (p.name = emp ∧ p.date = d)) = []
  · have hempty := (range_day_filter_empty_iff cfg punches emp d).mpr hp
    rw [if_pos hp]
    simp [hempty]
  · have hnonempty : ¬ (((range_punches cfg punches emp d).filter
        (fun p => decide (p.date = d))).isEmpty = true) :=
      fun hc => hp ((range_day_filter_empty_iff cfg punches emp d).mp hc)
    have hne : ((range_punches cfg punches emp d).filter
        (fun p => decide (p.date = d))).isEmpty = false := by
      revert hnonempty
      cases ((range_punches cfg punches emp d).filter (fun p => decide (p.date = d))).isEmpty <;>
        simp
    rw [if_neg hp]
    simp [hne]

/-- Claim C1 witness: one punch on the shift date against the default six
required slots gives an Incomplete day, matching the classification. -/
theorem claim_C1_witness :
    ∃ dr, processShiftDay defaultCfg [⟨"A", "Admin", 0, 485⟩] "A" 0 = some dr ∧
      dr.dayStatus =
        if ([⟨"A", "Admin", 0, 485⟩] : List Punch).filter
            (fun p => decide (p.name = "A" ∧ p.date = 0)) = [] then "غائب"
        else if dr.actualChecks = dr.requiredChecks then "مستوفي"
        else "نقص بصمة (" ++ toString (dr.requiredChecks - dr.actualChecks) ++ ")" := by
  cases hp : processShiftDay defaultCfg [⟨"A", "Admin", 0, 485⟩] "A" 0 with
  | none => exact absurd hp (by decide)
  | some dr => exact ⟨dr, rfl, claim_C1_day_classification defaultCfg _ "A" 0 dr hp⟩

/-- Claim C4: with absence_threshold > 0, an employee summary's
absent_days is the integer quotient of the employee's total missing-check
count by the threshold, computed once over the group total. -/
theorem claim_C4_absence_bucketing (th twd : Nat) (nm dept : String)
    (days : List DayResult) (h : 0 < th) :
    (aggregateGroup th twd nm dept days).absentDays =
      (days.map (fun r => r.missingChecks)).sum / th := by
  unfold aggregateGroup
  by_cases h0 : (days.map (fun r => r.missingChecks)).sum > 0
  · simp [h0]
  · have hz : (days.map (fun r => r.missingChecks)).sum = 0 := by omega
    simp [hz]

/-- Claim C4 witness: 12 missing checks with threshold 3 bucket to 4
absent days, and 2 missing checks with threshold 3 bucket to 0. -/
theorem claim_C4_witness :
    0 < 3 ∧
    (aggregateGroup 3 4 "A" "D"
      [⟨"A", "D", 0, "غائب", 0, 0, 0, 1, 6, 0, 6, 0, 0⟩,
       ⟨"A", "D", 1, "غائب", 0, 0, 0, 1, 6, 0, 6, 0, 0⟩]).absentDays = 4 ∧
    (aggregateGroup 3 1 "B" "D"
      [⟨"B", "D", 0, "نقص بصمة (2)", 0, 0, 0, 0, 6, 4, 2, 0, 0⟩]).absentDays = 0 :=
  ⟨by decide,
    (claim_C4_absence_bucketing 3 4 "A" "D" _ (by decide)).trans (by decide),
    (claim_C4_absence_bucketing 3 1 "B" "D" _ (by decide)).trans (by decide)⟩

/-- Claim C2: for every shift day fed to the slot matcher, no two
SlotMatch entries reference the same punch instant — once a timestamp is
consumed by an earlier slot it is excluded from every later slot's
candidate set, so the matched timestamps are pairwise distinct. -/
theorem claim_C2_no_punch_reuse (tol : Int) (punches reqs : List Int) :
    (matchedTimes (matchSlots tol punches reqs)).Nodup :=
  (matchSlotsAux_nodup tol punches reqs []).2

/-- Claim C3, counterexample: with tolerance 30, a punch 45 minutes after
the required instant (08:45 against 08:00) is NOT matched — it lies
outside the tolerance window — and contributes 0, not 15, to
late_minutes.  This refutes the claim's assertion that such a punch is
matched and contributes 15. -/
theorem claim_C3_counterexample :
    (matchSlots 30 [525] [480]).map SlotMatch.matched = [false] ∧
    (calculate_attendance_metrics 30 (matchSlots 30 [525] [480])).lateMinutes = 0 ∧
    (calculate_attendance_metrics 30 (matchSlots 30 [525] [480])).lateCount = 0 := by
  refine ⟨by decide, by decide, by decide⟩

/-- Claim C3, amended: with tolerance 30, a punch exactly 30 minutes after
its required instant is matched and contributes 0 to late_minutes; a punch
45 minutes after is not matched at all (the window is ±tolerance), and in
general every matched slot's delay is at most tolerance_minutes, so the
late branch — which would accumulate delay − tolerance — never fires. -/
theorem claim_C3_tolerance_amended :
    (matchSlots 30 [510] [480] =
        [{ required_time := 480, matched := true, actual_time := some 510 }] ∧
      (calculate_attendance_metrics 30 (matchSlots 30 [510] [480])).lateMinutes = 0 ∧
      (calculate_attendance_metrics 30 (matchSlots 30 [510] [480])).lateCount = 0) ∧
    (matchSlots 30 [525] [480] =
        [{ required_time := 480, matched := false, actual_time := none }]) ∧
    (∀ (tol : Int) (punches reqs : List Int), ∀ s ∈ matchSlots tol punches reqs,
      ∀ a : Int, s.actual_time = some a → a - s.required_time ≤ tol) := by
  refine ⟨⟨by decide, by decide, by decide⟩, by decide, ?_⟩
  intro tol punches reqs s hs a ha
  have := matchSlotsAux_window tol punches reqs [] s hs a ha
  omega

/-- Claim C3 witness: the delay bound of the amended claim, instantiated
at the concrete 30-minutes-late punch. -/
theorem claim_C3_witness :
    ({ required_time := 480, matched := true, actual_time := some 510 } : SlotMatch) ∈
      matchSlots 30 [510] [480] ∧
    (510 : Int) - 480 ≤ 30 :=
  ⟨by decide,
    claim_C3_tolerance_amended.2.2 30 [510] [480]
      { required_time := 480, matched := true, actual_time := some 510 } (by decide) 510 rfl⟩

/-- Generator loop invariant: when every configured time passes the range
checks, the loop succeeds and anchors each slot by list position alone. -/
theorem gen_required_times_ok (n d : Nat) :
    ∀ (ts : List String) (i : Nat), (∀ s ∈ ts, slot_time_ok s) →
      ∃ slots, gen_required_times n d i ts = .ok slots ∧
        slots.map RequiredSlot.anchor =
          (List.range ts.length).map (fun j => if i + j = n - 1 then d + 1 else d) := by
  intro ts
  induction ts with
  | nil => intro i _; exact ⟨[], rfl, by simp⟩
  | cons s rest ih =>
    intro i h
    have hok : slot_time_ok s := h s (List.mem_cons_self _ _)
    have hslot : mk_slot n d i s =
        .ok { anchor := if i = n - 1 then d + 1 else d,
              instant := ((if i = n - 1 then d + 1 else d : Nat) : Int) * 1440 +
                (parse_required_time s).1 * 60 + (parse_required_time s).2 } := by
      unfold mk_slot
      rw [if_pos]
      exact hok
    obtain ⟨slots', hgen, hmap⟩ := ih (i + 1) (fun x hx => h x (List.mem_cons_of_mem _ hx))
    refine ⟨{ anchor := if i = n - 1 then d + 1 else d,
              instant := ((if i = n - 1 then d + 1 else d : Nat) : Int) * 1440 +
                (parse_required_time s).1 * 60 + (parse_required_time s).2 } :: slots',
            ?_, ?_⟩
    · show gen_required_times n d i (s :: rest) = _
      unfold gen_required_times
      rw [hslot]
      show (gen_required_times n d (i + 1) rest).bind _ = _
      rw [hgen]
      rfl
    · simp only [List.map_cons, List.length_cons, List.range_succ_eq_map, List.map_map]
      congr 1
      rw [hmap]
      apply List.map_congr_left
      intro j _
      have h2 : i + 1 + j = i + (j + 1) := by omega
      simp [Function.comp, h2]

/-- Claim C6, counterexample: the configured time string "25:00" is
malformed as a time of day, yet it does not fall back to 08:00 — its
integer parse succeeds and `time.replace(hour=25)` raises, so the whole
day is skipped (`processShiftDay` yields no result), refuting the claim
that a malformed time string never fails the day. -/
theorem claim_C6_counterexample :
    get_required_times_for_date ["25:00"] 0 = .error () ∧
    processShiftDay
      { required_times := ["25:00"], tolerance_minutes := 30, absence_threshold := 3,
        norm := default_norm } [⟨"A", "D", 0, 485⟩] "A" 0 = none := by
  constructor <;> rfl

/-- Claim C6, amended: for every configured list of time strings whose
parsed hour/minute are in range, slot i < n−1 is anchored to the shift
date and the last slot to the next day, decided solely by list position;
a time string that fails the integer parse (wrong shape or non-numeric
parts) falls back to the default 08:00 instant and never fails the day —
but a numeric string whose hour or minute is out of range raises and the
day is skipped, as the counterexample shows. -/
theorem claim_C6_overflow_anchoring :
    (∀ (times : List String) (d : Nat), (∀ s ∈ times, slot_time_ok s) →
      ∃ slots, get_required_times_for_date times d = .ok slots ∧
        slots.map RequiredSlot.anchor =
          (List.range times.length).map
            (fun j => if j = times.length - 1 then d + 1 else d)) ∧
    (∀ (n d i : Nat), mk_slot n d i "ab:cd" =
      .ok { anchor := if i = n - 1 then d + 1 else d,
            instant := ((if i = n - 1 then d + 1 else d : Nat) : Int) * 1440 + 480 }) ∧
    (∀ (n d i : Nat), mk_slot n d i "08:00:00" =
      .ok { anchor := if i = n - 1 then d + 1 else d,
            instant := ((if i = n - 1 then d + 1 else d : Nat) : Int) * 1440 + 480 }) := by
  refine ⟨?_, ?_, ?_⟩
  · intro times d h
    obtain ⟨slots, hgen, hmap⟩ := gen_required_times_ok times.length d times 0 h
    refine ⟨slots, hgen, ?_⟩
    rw [hmap]
    apply List.map_congr_left
    intro j _
    simp
  · intro n d i
    have hp : parse_required_time "ab:cd" = (8, 0) := by decide
    unfold mk_slot
    rw [hp]
    norm_num
  · intro n d i
    have hp : parse_required_time "08:00:00" = (8, 0) := by decide
    unfold mk_slot
    rw [hp]
    norm_num

/-- Claim C6 witness: the six default times generate six slots anchored
[d, d, d, d, d, d+1]. -/
theorem claim_C6_witness :
    (∀ s ∈ default_required_times, slot_time_ok s) ∧
    ∃ slots, get_required_times_for_date default_required_times 0 = .ok slots ∧
      slots.map RequiredSlot.anchor =
        (List.range default_required_times.length).map
          (fun j => if j = default_required_times.length - 1 then 0 + 1 else 0) :=
  ⟨by decide, claim_C6_overflow_anchoring.1 default_required_times 0 (by decide)⟩

/-- Collapse lemma: while every following row is a near duplicate of the
anchor (same employee, under 10 minutes later), the scan removes them all
without ever moving the anchor. -/
theorem sweep_go_all_near (nm : String) :
    ∀ (rest : List Punch) (anchor : Int),
      (∀ q ∈ rest, q.name = nm ∧ punch_ts q < anchor + 10) →
        sweep_go nm anchor rest = [] := by
  intro rest
  induction rest with
  | nil => intro anchor _; rfl
  | cons p rest ih =>
    intro anchor h
    have hp := h p (List.mem_cons_self _ _)
    unfold sweep_go
    rw [if_pos hp.1, if_pos (by omega)]
    exact ih anchor (fun q hq => h q (List.mem_cons_of_mem _ hq))

/-- Chain invariant of the sweep: kept rows of the same employee are at
least 10 minutes apart, and the first kept row of the anchor's employee is
at least 10 minutes after the anchor. -/
theorem sweep_go_chain :
    ∀ (l : List Punch) (nm : String) (anchor : Int),
      List.Chain' (fun a b => a.name = b.name → punch_ts a + 10 ≤ punch_ts b)
        (sweep_go nm anchor l) ∧
      (∀ q, (sweep_go nm anchor l).head? = some q → q.name = nm →
        anchor + 10 ≤ punch_ts q) := by
  intro l
  induction l with
  | nil => intro nm anchor; exact ⟨List.chain'_nil, by simp [sweep_go]⟩
  | cons p rest ih =>
    intro nm anchor
    unfold sweep_go
    by_cases h1 : p.name = nm
    · rw [if_pos h1]
      by_cases h2 : punch_ts p - anchor < 10
      · rw [if_pos h2]
        exact ih nm anchor
      · rw [if_neg h2]
        constructor
        · rw [List.chain'_cons']
          refine ⟨?_, (ih p.name (punch_ts p)).1⟩
          intro y hy hname
          exact (ih p.name (punch_ts p)).2 y hy hname.symm
        · intro q hq _
          simp only [List.head?_cons, Option.some.injEq] at hq
          subst hq
          omega
    · rw [if_neg h1]
      constructor
      · rw [List.chain'_cons']
        refine ⟨?_, (ih p.name (punch_ts p)).1⟩
        intro y hy hname
        exact (ih p.name (punch_ts p)).2 y hy hname.symm
      · intro q hq hqn
        simp only [List.head?_cons, Option.some.injEq] at hq
        subst hq
        exact absurd hqn h1

/-- The sweep only removes rows, it never invents or reorders them. -/
theorem sweep_go_sublist :
    ∀ (l : List Punch) (nm : String) (anchor : Int), (sweep_go nm anchor l).Sublist l := by
  intro l
  induction l with
  | nil => intro nm anchor; simp [sweep_go]
  | cons p rest ih =>
    intro nm anchor
    unfold sweep_go
    by_cases h1 : p.name = nm
    · rw [if_pos h1]
      by_cases h2 : punch_ts p - anchor < 10
      · rw [if_pos h2]; exact (ih nm anchor).cons _
      · rw [if_neg h2]; exact (ih p.name (punch_ts p)).cons₂ _
    · rw [if_neg h1]; exact (ih p.name (punch_ts p)).cons₂ _

/-- Claim C7: the near-duplicate sweep keeps the first punch and removes
every punch less than 10 minutes after the previous unremoved punch of
the same employee; a removed punch does not reset the anchor, so a run of
closely spaced punches collapses to its first punch only.  Two punches 7
minutes apart collapse to the earlier one; two punches 12 minutes apart
both remain; kept punches of the same employee are always ≥ 10 minutes
apart; and the output is a subsequence of the input. -/
theorem claim_C7_near_duplicate_sweep :
    (∀ (p : Punch) (rest : List Punch),
      (∀ q ∈ rest, q.name = p.name ∧ punch_ts q < punch_ts p + 10) →
        sweep_near_duplicates (p :: rest) = [p]) ∧
    sweep_near_duplicates [⟨"A", "D", 0, 100⟩, ⟨"A", "D", 0, 107⟩] = [⟨"A", "D", 0, 100⟩] ∧
    sweep_near_duplicates [⟨"A", "D", 0, 100⟩, ⟨"A", "D", 0, 112⟩] =
      [⟨"A", "D", 0, 100⟩, ⟨"A", "D", 0, 112⟩] ∧
    (∀ l : List Punch, List.Chain'
      (fun a b => a.name = b.name → punch_ts a + 10 ≤ punch_ts b)
      (sweep_near_duplicates l)) ∧
    (∀ l : List Punch, (sweep_near_duplicates l).Sublist l) := by
  refine ⟨?_, by decide, by decide, ?_, ?_⟩
  · intro p rest h
    show p :: sweep_go p.name (punch_ts p) rest = [p]
    rw [sweep_go_all_near p.name rest (punch_ts p) h]
  · intro l
    cases l with
    | nil => exact List.chain'_nil
    | cons p rest =>
      unfold sweep_near_duplicates
      rw [List.chain'_cons']
      refine ⟨?_, (sweep_go_chain rest p.name (punch_ts p)).1⟩
      intro y hy hname
      exact (sweep_go_chain rest p.name (punch_ts p)).2 y hy hname.symm
  · intro l
    cases l with
    | nil => simp [sweep_near_duplicates]
    | cons p rest =>
      unfold sweep_near_duplicates
      exact (sweep_go_sublist rest p.name (punch_ts p)).cons₂ _

/-- Claim C7 witness: a run of three punches 5 and 4 minutes apart
collapses to the first punch only. -/
theorem claim_C7_witness :
    sweep_near_duplicates
      [⟨"A", "D", 0, 100⟩, ⟨"A", "D", 0, 105⟩, ⟨"A", "D", 0, 109⟩] = [⟨"A", "D", 0, 100⟩] :=
  claim_C7_near_duplicate_sweep.1 _ _ (by decide)

/-- Claim C10: with any tolerance_minutes ≥ 0 (indeed with any tolerance
at all), every processed day and every aggregated employee summary has
late_count = 0 and late_minutes = 0 — a punch is only matched inside
[required − tolerance, required + tolerance], so a matched slot's delay
can never exceed the tolerance and the late branch is unreachable. -/
theorem claim_C10_late_always_zero (cfg : Config)
    (htol : 0 ≤ cfg.tolerance_minutes) :
    (∀ (punches : List Punch) (emp : String) (d : Nat) (dr : DayResult),
      processShiftDay cfg punches emp d = some dr →
        dr.lateCount = 0 ∧ dr.lateMinutes = 0) ∧
    (∀ (fp : PunchTable) (sh : ShiftTable) (l : List EmpSummary),
      calculate_attendance cfg fp sh = .ok l →
        ∀ s ∈ l, s.lateCount = 0 ∧ s.lateMinutes = 0) := by
  constructor
  · intro punches emp d dr h
    exact processShiftDay_late_zero h
  · intro fp sh l hok s hs
    obtain ⟨punches, shifts, hl⟩ := calculate_attendance_ok_inv hok
    subst hl
    obtain ⟨nm, dept, hsum⟩ := aggregate_mem hs
    subst hsum
    constructor
    · apply sum_map_zero_nat
      intro r hr
      have hd := List.mem_of_mem_filter hr
      obtain ⟨emp, d, hday⟩ := computeDaily_mem hd
      exact (processShiftDay_late_zero hday).1
    · apply sum_map_zero_int
      intro r hr
      have hd := List.mem_of_mem_filter hr
      obtain ⟨emp, d, hday⟩ := computeDaily_mem hd
      exact (processShiftDay_late_zero hday).2

/-- Counting helper: two mutually exclusive predicates and their common
complement partition a list. -/
theorem countP_three_partition {α : Type} (p q : α → Bool)
    (hdisj : ∀ x, ¬(p x = true ∧ q x = true)) :
    ∀ l : List α,
      l.countP p + l.countP q + l.countP (fun x => !(p x) && !(q x)) = l.length := by
  intro l
  induction l with
  | nil => simp
  | cons x rest ih =>
    cases hp : p x <;> cases hq : q x
    · simp [List.countP_cons, hp, hq]
      omega
    · simp [List.countP_cons, hp, hq]
      omega
    · simp [List.countP_cons, hp, hq]
      omega
    · exact absurd ⟨hp, hq⟩ (hdisj x)

/-- Claim C9, counterexample: one scheduled shift day with one punch that
matches no slot yields a summary whose complete + incomplete + absent day
counts sum to 2, exceeding the single processed ShiftDay row — the
summary's absent_days is bucketed from missing checks (6 // 3 = 2) rather
than bounded by the day count, refuting the claimed bound. -/
theorem claim_C9_counterexample :
    calculate_attendance defaultCfg
      { columns := ["Name", "Department", "Date", "Time"], rows := [⟨"A", "Admin", 0, 600⟩] }
      { columns := ["Name", "Shift Date"], rows := [⟨"A", 0⟩] } =
      .ok [{ name := "A", dept := "Admin", totalWorkingDays := 1, completeDays := 0,
             incompleteDays := 0, absentDays := 2, lateCount := 0, lateMinutes := 0,
             requiredChecks := 6, actualChecks := 0, missingChecks := 6,
             finalStatus := "غير ملتزم" }] ∧
    count_shift_rows (dedupBy (fun r => (r.name, r.shiftDate))
      (dedupBy id [(⟨"A", 0⟩ : ShiftRow)])) "A" = 1 ∧
    ¬ ((0 : Nat) + 0 + 2 ≤ 1) :=
  ⟨by decide, by decide, by decide⟩

/-- Claim C9, amended: each processed ShiftDay row yields at most one
DayResult and every DayResult carries exactly one of the three statuses,
so the day-status counts (Complete, Absent, and the rest — the decorated
Incomplete statuses) sum to the number of DayResults, which is at most the
employee's processed ShiftDay rows.  The summary's reported absent_days,
being `missing_checks // absence_threshold`, is not bounded this way, as
the counterexample shows. -/
theorem claim_C9_day_count_bound_amended (cfg : Config) (punches : List Punch)
    (shifts : List ShiftRow) (emp : String) :
    ((processEmployee cfg punches shifts emp).countP
        (fun r => decide (r.dayStatus = "مستوفي")) +
      (processEmployee cfg punches shifts emp).countP
        (fun r => decide (r.dayStatus = "غائب")) +
      (processEmployee cfg punches shifts emp).countP
        (fun r => !(decide (r.dayStatus = "مستوفي")) && !(decide (r.dayStatus = "غائب"))) =
      (processEmployee cfg punches shifts emp).length) ∧
    (processEmployee cfg punches shifts emp).length ≤ count_shift_rows shifts emp := by
  constructor
  · apply countP_three_partition
    intro x ⟨h1, h2⟩
    have e1 := of_decide_eq_true h1
    have e2 := of_decide_eq_true h2
    rw [e1] at e2
    exact absurd e2 (by decide)
  · exact List.length_filterMap_le _ _

/-- Claim C5: the intended structural failure is implemented at lines
198-210 — a required-column check that returns an empty result after
printing exactly which columns are missing — but
`drop_duplicates(subset=['Name', 'Date', 'Time'])` at line 81 runs first
and raises an uncaught `KeyError` whenever Name, Date or Time is absent
from the punch batch, so a punch batch missing its Date column crashes
instead of reporting MissingColumns; only a missing Department column
reaches the intended check. -/
theorem claim_C5_missing_columns_uncaught :
    calculate_attendance defaultCfg
      { columns := ["Name", "Department", "Time"], rows := [⟨"A", "Admin", 0, 485⟩] }
      { columns := ["Name", "Shift Date"], rows := [⟨"A", 0⟩] } = .uncaughtKeyError ∧
    calculate_attendance defaultCfg
      { columns := ["Name", "Date", "Time"], rows := [⟨"A", "Admin", 0, 485⟩] }
      { columns := ["Name", "Shift Date"], rows := [⟨"A", 0⟩] } =
      .missingColumns ["Department"] :=
  ⟨by decide, by decide⟩

/-- Claim C8: introducing a single missing punch does NOT set
incomplete_days to 1 — the day is classified 'نقص بصمة (1)' but the
Incomplete Days flag compares the status to the bare string 'نقص بصمة'
(line 422), which never matches the decorated status, so the summary
reports incomplete_days = 0 and, with the default absence threshold 3,
final_status stays Compliant (ملتزم), contradicting the claim (and the
repository's own expected results in `verify_results.py`, which list
nonzero Incomplete Days). -/
theorem claim_C8_single_missing_punch_still_compliant :
    (processShiftDay defaultCfg
      [⟨"A", "Admin", 0, 485⟩, ⟨"A", "Admin", 0, 730⟩, ⟨"A", "Admin", 0, 895⟩,
       ⟨"A", "Admin", 0, 1205⟩, ⟨"A", "Admin", 0, 1378⟩] "A" 0).map
        (fun r => (r.dayStatus, r.incompleteDays)) = some ("نقص بصمة (1)", 0) ∧
    calculate_attendance defaultCfg
      { columns := ["Name", "Department", "Date", "Time"],
        rows := [⟨"A", "Admin", 0, 485⟩, ⟨"A", "Admin", 0, 730⟩, ⟨"A", "Admin", 0, 895⟩,
                 ⟨"A", "Admin", 0, 1205⟩, ⟨"A", "Admin", 0, 1378⟩] }
      { columns := ["Name", "Shift Date"], rows := [⟨"A", 0⟩] } =
      .ok [{ name := "A", dept := "Admin", totalWorkingDays := 1, completeDays := 0,
             incompleteDays := 0, absentDays := 0, lateCount := 0, lateMinutes := 0,
             requiredChecks := 6, actualChecks := 5, missingChecks := 1,
             finalStatus := "ملتزم" }] :=
  ⟨by decide, by decide⟩

/-- Claim C10 witness: the default configuration (tolerance 30 ≥ 0) on a
concrete day with one matched punch yields zero late columns. -/
theorem claim_C10_witness :
    (0 : Int) ≤ defaultCfg.tolerance_minutes ∧
    ∃ dr, processShiftDay defaultCfg [⟨"A", "Admin", 0, 485⟩] "A" 0 = some dr ∧
      dr.lateCount = 0 ∧ dr.lateMinutes = 0 := by
  refine ⟨by decide, ?_⟩
  cases hp : processShiftDay defaultCfg [⟨"A", "Admin", 0, 485⟩] "A" 0 with
  | none => exact absurd hp (by decide)
  | some dr =>
    exact ⟨dr, rfl, (claim_C10_late_always_zero defaultCfg (by decide)).1 _ _ _ _ hp⟩

end Fingerprint
